import Mathlib

/-!
Verification development for the FOSYS browser client
(task dashboard pages of the FOSYS_frontend repository).

The definitions below are a shallow embedding of the client code:

* `src/pages/InternTasks.js` (file `src/unnamed/part_001`):
  `resolveUserId`, `fetchTasks` (owner filtering), `updateStatus`,
  `broadcastTasksChanged`, and the realtime subscription handler.
* `src/FOSYS_frontend/src/pages/intern/InternHome.js`:
  `resolveSupabaseUserId`, `fetchTasks` (no owner filtering),
  the realtime `postgres_changes` handler, and the meeting
  pending-item parsing used by `copyTranscript`.

External collaborators (the backend HTTP API, the hosted BaaS auth and
query endpoints, the browser clipboard) are modelled as explicit inputs:
each network call outcome is a parameter of the embedded function, and
the embedded function reports which external calls it performed.
ECMAScript platform primitives used by the source (string conversion,
truthiness, strict equality, `Number`, `JSON.parse` / `JSON.stringify`)
are modelled by the `JSValue` operations and the `Json` fragment below.
-/

namespace Fosys

/-- Model of the JavaScript values that flow through the task pages:
strings, (integer) numbers, booleans, `null` and `undefined`.  Task ids
and owner ids in the code are strings or integers; no fractional
numbers occur in the modelled flows. -/
inductive JSValue where
  | undef : JSValue
  | null : JSValue
  | bool (b : Bool) : JSValue
  | num (n : Int) : JSValue
  | str (s : String) : JSValue
deriving DecidableEq, Repr

namespace JSValue

/-- ECMAScript `String(v)` conversion for the modelled values. -/
def jsToString : JSValue → String
  | .undef => "undefined"
  | .null => "null"
  | .bool b => if b then "true" else "false"
  | .num n => toString n
  | .str s => s

/-- ECMAScript truthiness for the modelled values: `undefined`, `null`,
`false`, `0` and `""` are falsy, everything else is truthy. -/
def jsTruthy : JSValue → Bool
  | .undef => false
  | .null => false
  | .bool b => b
  | .num n => n != 0
  | .str s => s != ""

/-- ECMAScript strict equality `===` for the modelled values: values of
different types are never equal; same-typed values compare by value.
(`NaN` does not occur in the modelled flows.) -/
def jsStrictEq : JSValue → JSValue → Bool
  | .undef, .undef => true
  | .null, .null => true
  | .bool a, .bool b => a == b
  | .num a, .num b => a == b
  | .str a, .str b => a == b
  | _, _ => false

/-- ECMAScript `str.includes("-")` as used by the identity resolver:
whether the string contains a hyphen character. -/
def containsHyphen (s : String) : Bool :=
  s.data.contains '-'

/-- Decimal digit parse used by the modelled `Number` conversion. -/
def digitsToNat : List Char → Option Nat
  | [] => none
  | cs => cs.foldl
      (fun acc c =>
        match acc with
        | none => none
        | some n => if c.isDigit then some (n * 10 + (c.toNat - '0'.toNat)) else none)
      (some 0)

/-- ECMAScript `Number(string)` conversion, restricted to the fragment
exercised by the resolver: the empty string converts to `0`, an
optionally signed decimal integer converts to its value, and anything
else is `NaN` (`none`).  (Whitespace trimming, hex and float syntax are
outside the modelled fragment; no resolver input in scope uses them.) -/
def strToNumber (s : String) : Option Int :=
  match s.data with
  | [] => some 0
  | '-' :: ds => (digitsToNat ds).map (fun n => -(n : Int))
  | '+' :: ds => (digitsToNat ds).map (fun n => (n : Int))
  | ds => (digitsToNat ds).map (fun n => (n : Int))

/-- ECMAScript `Number(v)` conversion for the modelled values; `none`
stands for `NaN`. -/
def jsToNumber : JSValue → Option Int
  | .undef => none
  | .null => some 0
  | .bool b => some (if b then 1 else 0)
  | .num n => some n
  | .str s => strToNumber s

end JSValue

open JSValue

/-- A task row as the client sees it: the `id` and `user_id` (owner)
columns, which are the only columns the modelled logic inspects, plus an
opaque `payload` standing for the remaining columns (title, description,
status, dates).  Realtime events replace rows wholesale, so the payload
rides along unexamined. -/
structure TaskRow where
  id : JSValue
  user_id : JSValue
  payload : String
deriving DecidableEq, Repr

/-- Result of one run of a `fetchTasks` function: the task list stored
into component state, whether the backend `GET /tasks` endpoint was
called, and whether the catch branch logged an error.  Both source
versions wrap their body in `try`/`catch`, so no exception escapes; the
embedded functions are correspondingly total. -/
structure FetchOut where
  tasks : List TaskRow
  backendCalled : Bool
  errorLogged : Bool
deriving DecidableEq, Repr

/-- Embedding of `fetchTasks` from `src/pages/InternTasks.js`
(`src/unnamed/part_001`, lines 50-72).  `uuid` is the result of
`resolveUserId()` (`none` models `null`); `backend` is the outcome of
`api.get("/tasks")` after response-shape unwrapping (`Except.error`
models a thrown network error).  When resolution fails the task list is
set empty and the backend is not called; otherwise the backend list is
filtered to rows with `String(t.user_id) === String(uuid)` (the right
side is already a string, so `String` leaves it unchanged). -/
def fetchTasksInternTasks (uuid : Option String) (backend : Except Unit (List TaskRow)) : FetchOut :=
  match uuid with
  | none => ⟨[], false, false⟩
  | some u =>
    match backend with
    | .ok all => ⟨all.filter (fun t => jsToString t.user_id == u), true, false⟩
    | .error _ => ⟨[], true, true⟩

/-- Embedding of `fetchTasks` from
`src/FOSYS_frontend/src/pages/intern/InternHome.js` (lines 199-219).
Same inputs as `fetchTasksInternTasks`; this version stores the backend
list without any owner filtering. -/
def fetchTasksInternHome (uuid : Option String) (backend : Except Unit (List TaskRow)) : FetchOut :=
  match uuid with
  | none => ⟨[], false, false⟩
  | some _ =>
    match backend with
    | .ok all => ⟨all, true, false⟩
    | .error _ => ⟨[], true, true⟩

/-- Observable external actions of `updateStatus`
(`src/unnamed/part_001`): the `PUT /tasks/id` call, the cross-tab
broadcast (`broadcastTasksChanged`), the list re-fetch (`fetchTasks`),
and a `console.error` log. -/
inductive Eff where
  | putCall : Eff
  | broadcast : Eff
  | fetchCall : Eff
  | logError : Eff
deriving DecidableEq, Repr

/-- Embedding of `updateStatus(taskId, newStatus)` from
`src/pages/InternTasks.js` (`src/unnamed/part_001`, lines 201-214).
`putResult` is the outcome of `await api.put(...)`.  The body runs
inside `try`/`catch`: on success the broadcast and the re-fetch follow
the put; on a thrown error control jumps to the catch, which only logs.
(`broadcastTasksChanged` and `fetchTasks` each catch internally and
never throw.)  The first component is the outcome seen by the calling
UI handler (`Except.ok` means no exception escaped); the second is the
ordered trace of external actions. -/
def updateStatus (putResult : Except Unit Unit) : Except Unit Unit × List Eff :=
  match putResult with
  | .ok _ => (.ok (), [.putCall, .broadcast, .fetchCall])
  | .error _ => (.ok (), [.putCall, .logError])

/-- Concrete task rows of the spec scenario: task 1 owned by the string
`"abc-123"`, task 2 owned by the number `99`. -/
def scenarioTask1 : TaskRow := ⟨.num 1, .str "abc-123", "t1"⟩

/-- Second row of the spec scenario. -/
def scenarioTask2 : TaskRow := ⟨.num 2, .num 99, "t2"⟩

/-- The local user record passed as the `user` prop of `InternHome`.
Each field holds the JavaScript value of the candidate property of the
same name (`JSValue.undef` when the property is absent). -/
structure LocalUser where
  supabase_user_id : JSValue
  auth_user_id : JSValue
  auth_id : JSValue
  auth_uuid : JSValue
  uuid : JSValue
  user_uuid : JSValue
  user_id : JSValue
  id : JSValue
deriving DecidableEq, Repr

/-- A local user record with every candidate property absent; concrete
records are built by overriding fields of this one. -/
def emptyUser : LocalUser :=
  ⟨.undef, .undef, .undef, .undef, .undef, .undef, .undef, .undef⟩

/-- The eight candidate properties of the local user record in the
order the source lists them (`InternHome.js` lines 119-128). -/
def rawDirectFields (u : LocalUser) : List JSValue :=
  [u.supabase_user_id, u.auth_user_id, u.auth_id, u.auth_uuid,
   u.uuid, u.user_uuid, u.user_id, u.id]

/-- Embedding of the `directCandidates` array built by
`resolveSupabaseUserId` (`InternHome.js` lines 119-128): the eight
candidate properties in source order, with falsy entries removed by
`.filter(Boolean)`. -/
def directCandidates (u : LocalUser) : List JSValue :=
  (rawDirectFields u).filter jsTruthy

/-- Embedding of the candidate scan loop (`InternHome.js` lines
130-135): the first entry that is a string containing a hyphen. -/
def firstHyphenString : List JSValue → Option String
  | [] => none
  | .str s :: rest => if containsHyphen s then some s else firstHyphenString rest
  | _ :: rest => firstHyphenString rest

/-- The row returned by the `employee` table lookup, restricted to the
six selected columns (`lookupEmployeeAuthColumns`). -/
structure EmployeeRow where
  supabase_user_id : JSValue
  auth_user_id : JSValue
  auth_id : JSValue
  user_uuid : JSValue
  supabase_id : JSValue
  auth_uuid : JSValue
deriving DecidableEq, Repr

/-- An employee row with every column absent; concrete rows override
fields of this one. -/
def emptyEmployeeRow : EmployeeRow :=
  ⟨.undef, .undef, .undef, .undef, .undef, .undef⟩

/-- Embedding of the `lookupEmployeeAuthColumns` array (`InternHome.js`
lines 65-72): the six column accessors in source order. -/
def lookupEmployeeAuthCols : List (EmployeeRow → JSValue) :=
  [EmployeeRow.supabase_user_id, EmployeeRow.auth_user_id, EmployeeRow.auth_id,
   EmployeeRow.user_uuid, EmployeeRow.supabase_id, EmployeeRow.auth_uuid]

/-- Embedding of the per-column test in the employee scan
(`InternHome.js` line 160): `data[col] && typeof data[col] === "string"
&& data[col].includes("-")`, yielding the column value on a hit. -/
def employeeColHit : JSValue → Option String
  | .str s => if s != "" && containsHyphen s then some s else none
  | _ => none

/-- Embedding of the employee-row scan loop (`InternHome.js` lines
159-164): the first column, in `lookupEmployeeAuthCols` order, whose
value is a truthy hyphen-containing string. -/
def scanEmployeeRow (row : EmployeeRow) : Option String :=
  lookupEmployeeAuthCols.findSome? (fun col => employeeColHit (col row))

/-- Outcomes of the two external calls `resolveSupabaseUserId` can
make: `authUserId` is `authData?.user?.id` from
`supabase.auth.getUser()` (`none` models a missing user, a missing id
or a thrown call, all of which the source treats alike), and
`employee n` is the row returned by the `employee`-table query for
numeric id `n` (`none` models an error result, no matching row, or a
thrown call). -/
structure ResolveOracle where
  authUserId : Option String
  employee : Int → Option EmployeeRow

/-- Record of which external calls one resolver run performed. -/
structure ResolveLog where
  authCalled : Bool
  employeeCalled : Bool
  employeeArg : Option Int
deriving DecidableEq, Repr

/-- Log of a resolver run that performed no external call. -/
def noCalls : ResolveLog := ⟨false, false, none⟩

/-- Result of one resolver run: the returned identifier, the new value
of `resolvedSupabaseUserIdRef.current`, and the call log. -/
structure ResolveOut where
  result : Option String
  cache : Option String
  log : ResolveLog
deriving DecidableEq, Repr

/-- Truthiness of the ref cell `resolvedSupabaseUserIdRef.current`,
which holds `null` or a previously returned string. -/
def cacheTruthy : Option String → Bool
  | none => false
  | some c => c != ""

/-- Embedding of the numeric-id fallback of `resolveSupabaseUserId`
(`InternHome.js` lines 149-169): convert `user.id` with `Number`; if
not `NaN`, query the `employee` table by that id and scan the fixed
column list; cache and return the first hit, otherwise return `null`.
Reached only after the auth-session call, so `authCalled` is true. -/
def resolveViaEmployee (cache : Option String) (u : LocalUser) (oracle : ResolveOracle) : ResolveOut :=
  match jsToNumber u.id with
  | some n =>
    match oracle.employee n with
    | some row =>
      match scanEmployeeRow row with
      | some c => ⟨some c, some c, ⟨true, true, some n⟩⟩
      | none => ⟨none, cache, ⟨true, true, some n⟩⟩
    | none => ⟨none, cache, ⟨true, true, some n⟩⟩
  | none => ⟨none, cache, ⟨true, false, none⟩⟩

/-- Embedding of `resolveSupabaseUserId` (`InternHome.js` lines
114-172).  `cache` is the ref cell on entry, `user` the component prop
(`none` models a falsy prop).  Order of the source: return the cached
value if truthy; return `null` on a falsy user; scan the direct
candidates; call the auth-session endpoint and accept a truthy id;
fall back to the employee-table lookup. -/
def resolveSupabaseUserId (cache : Option String) (user : Option LocalUser) (oracle : ResolveOracle) : ResolveOut :=
  if cacheTruthy cache then ⟨cache, cache, noCalls⟩
  else
    match user with
    | none => ⟨none, cache, noCalls⟩
    | some u =>
      match firstHyphenString (directCandidates u) with
      | some c => ⟨some c, some c, noCalls⟩
      | none =>
        match oracle.authUserId with
        | some a =>
          if a != "" then ⟨some a, some a, ⟨true, false, none⟩⟩
          else resolveViaEmployee cache u oracle
        | none => resolveViaEmployee cache u oracle

/-- Realtime event payload as destructured by the handler
(`InternHome.js` lines 252-256): the event kind
(`payload?.eventType || payload.event`), the new row image
(`payload?.new || payload?.record`) and the old row image
(`payload?.old`). -/
structure RealtimePayload where
  evt : String
  newRow : Option TaskRow
  oldRow : Option TaskRow
deriving DecidableEq, Repr

/-- What the realtime handler does to component state: replace the task
list, or fall back to a full `fetchTasks` re-fetch. -/
inductive HandlerAction where
  | setList (l : List TaskRow) : HandlerAction
  | refetch : HandlerAction
deriving DecidableEq, Repr

/-- INSERT branch state update (`InternHome.js` lines 258-261): keep
the list if a row with the same id is already present, else prepend. -/
def applyInsert (l : List TaskRow) (r : TaskRow) : List TaskRow :=
  if l.any (fun t => jsStrictEq t.id r.id) then l else r :: l

/-- UPDATE branch state update (`InternHome.js` line 263): replace the
row with the matching id, leaving other rows alone. -/
def applyUpdate (l : List TaskRow) (r : TaskRow) : List TaskRow :=
  l.map (fun t => if jsStrictEq t.id r.id then r else t)

/-- DELETE branch state update (`InternHome.js` line 265): drop the
rows whose id strictly equals the deleted id. -/
def applyDelete (l : List TaskRow) (r : TaskRow) : List TaskRow :=
  l.filter (fun t => !jsStrictEq t.id r.id)

/-- Embedding of the realtime `postgres_changes` handler of
`InternHome.js` (lines 252-274).  `uid` is the resolved identifier
captured by the subscription closure, `l` the task list at event time.
Each branch fires only when its row image is present and the owner
matches (`String(row.user_id) === String(supaUserId)`, whose right side
is already a string); every unmatched shape falls through to the full
re-fetch. -/
def handleTaskEvent (uid : String) (l : List TaskRow) (p : RealtimePayload) : HandlerAction :=
  if p.evt = "INSERT" then
    match p.newRow with
    | some r => if jsToString r.user_id = uid then .setList (applyInsert l r) else .refetch
    | none => .refetch
  else if p.evt = "UPDATE" then
    match p.newRow with
    | some r => if jsToString r.user_id = uid then .setList (applyUpdate l r) else .refetch
    | none => .refetch
  else if p.evt = "DELETE" then
    match p.oldRow with
    | some r => if jsToString r.user_id = uid then .setList (applyDelete l r) else .refetch
    | none => .refetch
  else .refetch

/-! ### JSON fragment for the meeting pending-item round trip

`copyTranscript` (`InternHome.js` lines 331-369) reads a meeting field
that may be a JSON-encoded string, parses it with `JSON.parse` (falling
back to a one-element array holding the raw string on parse failure),
and renders each parsed item through the template `p.task || p`.  The
spec restricts pending items to two shapes: a plain string, or an
object with a string `task` field.  `JSON.stringify` / `JSON.parse` are
ECMAScript platform primitives; they are modelled below on the fragment
those shapes generate (arrays of strings and of one-key `task`
objects, without insignificant whitespace). -/

/-- A pending item as it exists before encoding: a plain string, or an
object with a `task` field. -/
inductive PItem where
  | pstr (s : List Char) : PItem
  | pobj (task : List Char) : PItem
deriving DecidableEq, Repr

/-- The task text carried by a pending item. -/
def pitemText : PItem → List Char
  | .pstr s => s
  | .pobj t => t

/-- Lowercase hexadecimal digit, as `JSON.stringify` emits in `\u00xx`
escapes (codepoint arithmetic: digits start at 48, letters at 97). -/
def hexDig (n : Nat) : Char :=
  Char.ofNat (if n ≤ 9 then 48 + n else 87 + n)

/-- Value of a hexadecimal digit character, by codepoint arithmetic. -/
def hexVal (c : Char) : Option Nat :=
  if c.isDigit then some (c.toNat - 48)
  else if 97 ≤ c.toNat && c.toNat ≤ 102 then some (c.toNat - 87)
  else if 65 ≤ c.toNat && c.toNat ≤ 70 then some (c.toNat - 55)
  else none

/-- How `JSON.stringify` escapes one character inside a string literal:
quote and backslash get a backslash escape, the five named control
characters get their short escapes, other control characters get a
`\u00xx` escape, and everything else is emitted verbatim. -/
def escChar (c : Char) : List Char :=
  if c = '"' then ['\\', '"']
  else if c = '\\' then ['\\', '\\']
  else if c = '\n' then ['\\', 'n']
  else if c = '\t' then ['\\', 't']
  else if c = '\r' then ['\\', 'r']
  else if c = '\x08' then ['\\', 'b']
  else if c = '\x0c' then ['\\', 'f']
  else if c.toNat < 32 then
    ['\\', 'u', '0', '0', hexDig (c.toNat / 16), hexDig (c.toNat % 16)]
  else [c]

/-- Escape every character of a string body. -/
def escStr : List Char → List Char
  | [] => []
  | c :: cs => escChar c ++ escStr cs

/-- A JSON string literal: quoted escaped body. -/
def encStr (s : List Char) : List Char :=
  '"' :: (escStr s ++ ['"'])

/-- The `JSON.stringify` image of one pending item. -/
def encItem : PItem → List Char
  | .pstr s => encStr s
  | .pobj t =>
    '\x7b' :: (encStr ['t', 'a', 's', 'k'] ++ (':' :: (encStr t ++ ['\x7d'])))

/-- The remainder of a stringified array after its first element:
comma-separated further elements and the closing bracket. -/
def encTail : List PItem → List Char
  | [] => [']']
  | i :: is => ',' :: (encItem i ++ encTail is)

/-- The `JSON.stringify` image of an array of pending items. -/
def encItems : List PItem → List Char
  | [] => ['[', ']']
  | i :: is => '[' :: (encItem i ++ encTail is)

/-- A parsed JSON value of the pending-item shapes: a string, or an
object whose `task` field holds the given string. -/
inductive JVal where
  | jstr (s : List Char) : JVal
  | jobjTask (t : List Char) : JVal
deriving DecidableEq, Repr

/-- The parsed value corresponding to a pending item. -/
def toJVal : PItem → JVal
  | .pstr s => .jstr s
  | .pobj t => .jobjTask t

/-- Short escape codes accepted inside a JSON string literal: the five
named control escapes decode to their control characters, and quote,
backslash and slash decode to themselves. -/
def unesc (e : Char) : Option Char :=
  if e = 'n' then some '\n'
  else if e = 't' then some '\t'
  else if e = 'r' then some '\r'
  else if e = 'b' then some '\x08'
  else if e = 'f' then some '\x0c'
  else if e = '"' || e = '\\' || e = '/' then some e
  else none

/-- Parse a JSON string body after its opening quote, returning the
decoded body and the input remaining after the closing quote. -/
def pString : List Char → Option (List Char × List Char)
  | [] => none
  | c :: rest =>
    if c = '"' then some ([], rest)
    else if c = '\\' then
      match rest with
      | 'u' :: a :: b :: c2 :: d :: rest2 =>
        match hexVal a, hexVal b, hexVal c2, hexVal d with
        | some ha, some hb, some hc, some hd =>
          match pString rest2 with
          | some (s, r) =>
            some (Char.ofNat (((ha * 16 + hb) * 16 + hc) * 16 + hd) :: s, r)
          | none => none
        | _, _, _, _ => none
      | e :: rest2 =>
        match unesc e with
        | some ch =>
          match pString rest2 with
          | some (s, r) => some (ch :: s, r)
          | none => none
        | none => none
      | [] => none
    else
      match pString rest with
      | some (s, r) => some (c :: s, r)
      | none => none

/-- Parse one JSON value of the pending-item shapes: a string literal
or an object with the single key `task`. -/
def pValue : List Char → Option (JVal × List Char)
  | [] => none
  | c :: rest =>
    if c = '"' then
      match pString rest with
      | some (s, r) => some (.jstr s, r)
      | none => none
    else if c = '\x7b' then
      match rest with
      | '"' :: r1 =>
        match pString r1 with
        | some (key, r2) =>
          if key = ['t', 'a', 's', 'k'] then
            match r2 with
            | ':' :: '"' :: r3 =>
              match pString r3 with
              | some (tv, r4) =>
                match r4 with
                | '\x7d' :: r5 => some (.jobjTask tv, r5)
                | _ => none
              | none => none
            | _ => none
          else none
        | none => none
      | _ => none
    else none

/-- Parse the elements of a JSON array after its first element: either
the closing bracket, or a comma followed by a value and the rest.  The
fuel argument bounds the number of elements; callers pass the input
length, which always suffices. -/
def pArrTail : Nat → List Char → Option (List JVal × List Char)
  | _, ']' :: rest => some ([], rest)
  | fuel + 1, ',' :: rest =>
    match pValue rest with
    | some (v, r) =>
      match pArrTail fuel r with
      | some (vs, r2) => some (v :: vs, r2)
      | none => none
    | none => none
  | _, _ => none

/-- Parse a complete JSON array of pending-item values, requiring the
whole input to be consumed, as `JSON.parse` does. -/
def jparseArr (s : List Char) : Option (List JVal) :=
  match s with
  | '[' :: ']' :: rest => if rest.isEmpty then some [] else none
  | '[' :: rest =>
    match pValue rest with
    | some (v, r) =>
      match pArrTail s.length r with
      | some (vs, r2) => if r2.isEmpty then some (v :: vs) else none
      | none => none
    | none => none
  | _ => none

/-- Embedding of `parseItems` from `copyTranscript` (`InternHome.js`
lines 333-343) for a string-typed field: `JSON.parse` the string, and
on parse failure return a one-element array holding the raw string. -/
def parsePendingField (s : List Char) : List JVal :=
  match jparseArr s with
  | some vs => vs
  | none => [.jstr s]

/-- Embedding of the clipboard rendering of one parsed pending item
(`InternHome.js` line 354): the template `p.task || p` coerced to a
string.  A string item renders as itself; an object renders as its
`task` field when that field is truthy (nonempty), and otherwise falls
back to the object itself, which the template coerces to
`"[object Object]"`. -/
def renderItem : JVal → List Char
  | .jstr s => s
  | .jobjTask t => if t.isEmpty then "[object Object]".toList else t

/-- The sequence of task text values `copyTranscript` renders from a
string-typed pending-items field. -/
def renderPending (s : List Char) : List (List Char) :=
  (parsePendingField s).map renderItem

/-- The local user of the spec scenario: `{id: 42, supabase_user_id:
"abc-123"}`. -/
def scenarioUser : LocalUser :=
  { emptyUser with id := .num 42, supabase_user_id := .str "abc-123" }

/-- The local user of the indirect-lookup scenario: `{id: 42}` with no
hyphenated field. -/
def scenarioUserNoDirect : LocalUser :=
  { emptyUser with id := .num 42 }

/-- The employee row of the indirect-lookup scenario:
`{auth_user_id: "xyz-789"}`. -/
def scenarioEmployeeRow : EmployeeRow :=
  { emptyEmployeeRow with auth_user_id := .str "xyz-789" }

/-- Concrete external-call outcomes: no auth-session identifier, and an
employee row only for numeric id 42. -/
def scenarioOracle : ResolveOracle :=
  ⟨none, fun n => if n = 42 then some scenarioEmployeeRow else none⟩

/-! ### Supporting lemmas -/

/-- Reading back a hexadecimal digit recovers its value. -/
theorem hexVal_hexDig (n : Nat) (h : n < 16) : hexVal (hexDig n) = some n := by
  interval_cases n <;> rfl

/-- The string parser inverts the escaper: parsing an escaped body
followed by a closing quote yields the original body and the remaining
input. -/
theorem pString_esc (s rest : List Char) :
    pString (escStr s ++ '"' :: rest) = some (s, rest) := by
  induction s with
  | nil =>
    rw [escStr, List.nil_append, pString.eq_def]
    simp
  | cons c cs ih =>
    rw [escStr, List.append_assoc]
    by_cases h1 : c = '"'
    · subst h1
      rw [escChar, if_pos rfl, List.cons_append, List.cons_append, List.nil_append,
        pString.eq_def]
      simp [unesc, ih]
    by_cases h2 : c = '\\'
    · subst h2
      rw [escChar, if_neg (by decide), if_pos rfl, List.cons_append, List.cons_append,
        List.nil_append, pString.eq_def]
      simp [unesc, ih]
    by_cases h3 : c = '\n'
    · subst h3
      rw [escChar, if_neg (by decide), if_neg (by decide), if_pos rfl, List.cons_append,
        List.cons_append, List.nil_append, pString.eq_def]
      simp [unesc, ih]
    by_cases h4 : c = '\t'
    · subst h4
      rw [escChar, if_neg (by decide), if_neg (by decide), if_neg (by decide), if_pos rfl,
        List.cons_append, List.cons_append, List.nil_append, pString.eq_def]
      simp [unesc, ih]
    by_cases h5 : c = '\r'
    · subst h5
      rw [escChar, if_neg (by decide), if_neg (by decide), if_neg (by decide),
        if_neg (by decide), if_pos rfl, List.cons_append, List.cons_append,
        List.nil_append, pString.eq_def]
      simp [unesc, ih]
    by_cases h6 : c = '\x08'
    · subst h6
      rw [escChar, if_neg (by decide), if_neg (by decide), if_neg (by decide),
        if_neg (by decide), if_neg (by decide), if_pos rfl, List.cons_append,
        List.cons_append, List.nil_append, pString.eq_def]
      simp [unesc, ih]
    by_cases h7 : c = '\x0c'
    · subst h7
      rw [escChar, if_neg (by decide), if_neg (by decide), if_neg (by decide),
        if_neg (by decide), if_neg (by decide), if_neg (by decide), if_pos rfl,
        List.cons_append, List.cons_append, List.nil_append, pString.eq_def]
      simp [unesc, ih]
    by_cases h8 : c.toNat < 32
    · have hv1 : hexVal (hexDig (c.toNat / 16)) = some (c.toNat / 16) :=
        hexVal_hexDig _ (by omega)
      have hv2 : hexVal (hexDig (c.toNat % 16)) = some (c.toNat % 16) :=
        hexVal_hexDig _ (by omega)
      have hn : ((0 * 16 + 0) * 16 + c.toNat / 16) * 16 + c.toNat % 16 = c.toNat := by
        omega
      rw [escChar, if_neg h1, if_neg h2, if_neg h3, if_neg h4, if_neg h5, if_neg h6,
        if_neg h7, if_pos h8]
      rw [List.cons_append, pString.eq_def]
      simp only [List.cons_append, List.nil_append, if_neg (by decide : ¬ '\\' = '"'),
        if_pos rfl]
      simp only [show hexVal '0' = some 0 from rfl, hv1, hv2]
      simp only [hn, Char.ofNat_toNat, ih]
      simp
    · rw [escChar, if_neg h1, if_neg h2, if_neg h3, if_neg h4, if_neg h5, if_neg h6,
        if_neg h7, if_neg h8, List.cons_append, List.nil_append, pString.eq_def]
      simp only [if_neg h1, if_neg h2]
      rw [ih]

/-- The value parser inverts the item encoder. -/
theorem pValue_enc (i : PItem) (rest : List Char) :
    pValue (encItem i ++ rest) = some (toJVal i, rest) := by
  cases i with
  | pstr s =>
    rw [encItem, encStr, List.cons_append, List.append_assoc, List.singleton_append,
      pValue.eq_def]
    simp [pString_esc, toJVal]
  | pobj t =>
    rw [encItem, List.cons_append, pValue.eq_def]
    simp only [encStr, List.cons_append, List.append_assoc, List.singleton_append,
      List.nil_append]
    simp [pString_esc, toJVal]

/-- The encoded array tail is longer than the item count, so the input
length is always enough fuel for `pArrTail`. -/
theorem length_lt_encTail (is : List PItem) : is.length < (encTail is).length := by
  induction is with
  | nil => simp [encTail]
  | cons i is ih =>
    rw [encTail]
    simp only [List.length_cons, List.length_append]
    omega

/-- The array-tail parser inverts the tail encoder, for any sufficient
fuel. -/
theorem pArrTail_enc (is : List PItem) : ∀ (fuel : Nat) (rest : List Char),
    is.length < fuel →
    pArrTail fuel (encTail is ++ rest) = some (is.map toJVal, rest) := by
  induction is with
  | nil =>
    intro fuel rest _
    rw [encTail, List.singleton_append, pArrTail.eq_def]
    cases fuel <;> simp
  | cons i is ih =>
    intro fuel rest h
    match fuel with
    | f + 1 =>
      rw [encTail, List.cons_append, List.append_assoc, pArrTail.eq_def]
      simp only [pValue_enc]
      rw [ih f rest (by simpa using Nat.lt_of_succ_lt_succ h)]
      simp

/-- The array parser inverts the array encoder. -/
theorem jparseArr_enc (items : List PItem) :
    jparseArr (encItems items) = some (items.map toJVal) := by
  cases items with
  | nil =>
    rw [encItems, jparseArr.eq_def]
    simp
  | cons i is =>
    cases i with
    | pstr s =>
      rw [encItems, encItem, encStr, List.cons_append, List.append_assoc,
        List.singleton_append]
      have hb : is.length < ('[' :: '"' :: (escStr s ++ ('"' :: encTail is))).length := by
        have := length_lt_encTail is
        simp only [List.length_cons, List.length_append]
        omega
      have hpt := pArrTail_enc is (('[' :: '"' :: (escStr s ++ ('"' :: encTail is))).length) [] hb
      rw [List.append_nil] at hpt
      simp only [List.length_cons, List.length_append] at hpt
      rw [jparseArr.eq_def]
      simp [pValue, pString_esc, hpt, toJVal]
    | pobj t =>
      simp only [encItems, encItem, encStr, List.cons_append, List.append_assoc,
        List.singleton_append, List.nil_append]
      have hb : is.length < (escStr ['t', 'a', 's', 'k']).length +
          ((escStr t).length + ((encTail is).length + 1 + 1) + 1 + 1 + 1) + 1 + 1 + 1 := by
        have := length_lt_encTail is
        omega
      have hpt := pArrTail_enc is ((escStr ['t', 'a', 's', 'k']).length +
          ((escStr t).length + ((encTail is).length + 1 + 1) + 1 + 1 + 1) + 1 + 1 + 1) [] hb
      rw [List.append_nil] at hpt
      rw [jparseArr.eq_def]
      simp [pValue, pString_esc, toJVal, hpt]

theorem containsHyphen_ne_empty (s : String) (h : containsHyphen s = true) : s ≠ "" := by
  intro he
  subst he
  exact absurd h (by decide)

theorem firstHyphenString_hyphen (xs : List JSValue) (c : String)
    (h : firstHyphenString xs = some c) : containsHyphen c = true := by
  induction xs with
  | nil => simp [firstHyphenString] at h
  | cons x xs ih =>
    cases x with
    | str s =>
      by_cases hc : containsHyphen s = true
      · rw [firstHyphenString, if_pos hc] at h
        cases h
        exact hc
      · rw [firstHyphenString, if_neg hc] at h
        exact ih h
    | undef => exact ih (by simpa [firstHyphenString] using h)
    | null => exact ih (by simpa [firstHyphenString] using h)
    | bool b => exact ih (by simpa [firstHyphenString] using h)
    | num n => exact ih (by simpa [firstHyphenString] using h)

theorem firstHyphenString_filter (xs : List JSValue) :
    firstHyphenString (xs.filter jsTruthy) = firstHyphenString xs := by
  induction xs with
  | nil => rfl
  | cons x xs ih =>
    cases x with
    | str s =>
      by_cases hs : s = ""
      · subst hs
        simp [List.filter, jsTruthy, firstHyphenString, ih, show containsHyphen "" = false from rfl]
      · have hs2 : (s != "") = true := by simp [hs]
        simp [List.filter, jsTruthy, hs2, firstHyphenString, ih]
    | undef => simp [List.filter, jsTruthy, firstHyphenString, ih]
    | null => simp [List.filter, jsTruthy, firstHyphenString, ih]
    | bool b => cases b <;> simp [List.filter, jsTruthy, firstHyphenString, ih]
    | num n =>
      by_cases hn : n = 0
      · subst hn
        simp [List.filter, jsTruthy, firstHyphenString, ih]
      · have hn2 : (n != 0) = true := by simp [hn]
        simp [List.filter, jsTruthy, hn2, firstHyphenString, ih]

theorem employeeColHit_ne (v : JSValue) (c : String) (h : employeeColHit v = some c) :
    c ≠ "" := by
  cases v with
  | str s =>
    rw [employeeColHit] at h
    by_cases hg : (s != "" && containsHyphen s) = true
    · rw [if_pos hg] at h
      cases h
      simpa using (Bool.and_elim_left hg)
    · rw [if_neg hg] at h
      cases h
  | undef => cases h
  | null => cases h
  | bool b => cases h
  | num n => cases h

theorem findSome_colHit_ne (cols : List (EmployeeRow → JSValue)) (row : EmployeeRow)
    (c : String) (h : cols.findSome? (fun col => employeeColHit (col row)) = some c) :
    c ≠ "" := by
  induction cols with
  | nil => simp [List.findSome?] at h
  | cons a l ih =>
    rw [List.findSome?] at h
    cases hx : employeeColHit (a row) with
    | some b =>
      rw [hx] at h
      cases h
      exact employeeColHit_ne _ _ hx
    | none =>
      rw [hx] at h
      exact ih h

theorem scanEmployeeRow_ne (row : EmployeeRow) (c : String)
    (h : scanEmployeeRow row = some c) : c ≠ "" :=
  findSome_colHit_ne _ _ _ h

theorem resolveViaEmployee_result_cache (u : LocalUser) (oracle : ResolveOracle) (v : String)
    (h : (resolveViaEmployee none u oracle).result = some v) :
    (resolveViaEmployee none u oracle).cache = some v ∧ v ≠ "" := by
  cases hn : jsToNumber u.id with
  | none => simp [resolveViaEmployee, hn] at h
  | some n =>
    cases he : oracle.employee n with
    | none => simp [resolveViaEmployee, hn, he] at h
    | some row =>
      cases hs : scanEmployeeRow row with
      | none => simp [resolveViaEmployee, hn, he, hs] at h
      | some c =>
        simp [resolveViaEmployee, hn, he, hs] at h ⊢
        subst h
        exact ⟨rfl, scanEmployeeRow_ne _ _ hs⟩

theorem resolve_result_cache (user : Option LocalUser) (oracle : ResolveOracle) (v : String)
    (h : (resolveSupabaseUserId none user oracle).result = some v) :
    (resolveSupabaseUserId none user oracle).cache = some v ∧ v ≠ "" := by
  cases user with
  | none => simp [resolveSupabaseUserId, cacheTruthy] at h
  | some u =>
    cases hd : firstHyphenString (directCandidates u) with
    | some c =>
      simp [resolveSupabaseUserId, cacheTruthy, hd] at h ⊢
      subst h
      exact ⟨rfl, containsHyphen_ne_empty _ (firstHyphenString_hyphen _ _ hd)⟩
    | none =>
      cases ha : oracle.authUserId with
      | some a =>
        by_cases he : a = ""
        · subst he
          simp [resolveSupabaseUserId, cacheTruthy, hd, ha] at h ⊢
          exact resolveViaEmployee_result_cache u oracle v h
        · have he2 : (a != "") = true := by simp [he]
          simp [resolveSupabaseUserId, cacheTruthy, hd, ha, he2] at h ⊢
          subst h
          exact ⟨rfl, he⟩
      | none =>
        simp [resolveSupabaseUserId, cacheTruthy, hd, ha] at h ⊢
        exact resolveViaEmployee_result_cache u oracle v h

/-! ### Claim theorems -/

/-- C1: the claim states that every list exposed by the task list
operation contains exactly the backend rows whose owner, compared as a
string, equals the resolved identifier (with numeric owner 99 matching
the string "99").  This holds for `fetchTasks` of `InternTasks.js`,
and the theorem also evaluates `fetchTasks` of `InternHome.js` at the
spec scenario, where it exposes the unfiltered backend list including
a row whose owner does not match — the code bug behind this claim. -/
theorem C1_fetchTasks_owner_filter :
    (∀ (u : String) (l : List TaskRow) (t : TaskRow),
        t ∈ (fetchTasksInternTasks (some u) (Except.ok l)).tasks ↔
          t ∈ l ∧ jsToString t.user_id = u) ∧
    (fetchTasksInternTasks (some "99") (Except.ok [scenarioTask1, scenarioTask2])).tasks
      = [scenarioTask2] ∧
    (fetchTasksInternHome (some "99") (Except.ok [scenarioTask1, scenarioTask2])).tasks
      = [scenarioTask1, scenarioTask2] ∧
    jsToString scenarioTask1.user_id ≠ "99" := by
  refine ⟨?_, by decide, by decide, by decide⟩
  intro u l t
  simp [fetchTasksInternTasks, List.mem_filter]

/-- C2 counterexample: an invocation of `updateStatus` whose partial
update fails triggers neither the cross-tab broadcast nor the list
re-fetch, contradicting the claim that both happen on every
invocation; the error is logged and no exception escapes. -/
theorem C2_counterexample :
    (updateStatus (Except.error ())).1 = Except.ok () ∧
    (updateStatus (Except.error ())).2 = [Eff.putCall, Eff.logError] ∧
    Eff.broadcast ∉ (updateStatus (Except.error ())).2 ∧
    Eff.fetchCall ∉ (updateStatus (Except.error ())).2 := by
  refine ⟨rfl, rfl, ?_, ?_⟩ <;> decide

/-- C2 (amended): `updateStatus` never lets an exception escape; when
the partial update succeeds it broadcasts and re-fetches, and when the
partial update throws it only logs the error, performing neither the
broadcast nor the re-fetch. -/
theorem C2_updateStatus_effects (r : Except Unit Unit) :
    updateStatus r = (Except.ok (),
      match r with
      | .ok _ => [Eff.putCall, Eff.broadcast, Eff.fetchCall]
      | .error _ => [Eff.putCall, Eff.logError]) := by
  cases r <;> rfl

/-- C3: when some direct candidate field of the local user record is a
string containing a hyphen, resolution returns the first such value in
the fixed field order and performs neither the auth-session query nor
the employee-table lookup. -/
theorem C3_resolve_direct (u : LocalUser) (oracle : ResolveOracle) (c : String)
    (h : firstHyphenString (rawDirectFields u) = some c) :
    resolveSupabaseUserId none (some u) oracle = ⟨some c, some c, noCalls⟩ := by
  have hd : firstHyphenString (directCandidates u) = some c := by
    rw [directCandidates, firstHyphenString_filter]
    exact h
  simp [resolveSupabaseUserId, cacheTruthy, hd, noCalls]

/-- C3 witness: the user `{id: 42, supabase_user_id: "abc-123"}`
resolves to `"abc-123"` with no external call. -/
theorem C3_witness :
    firstHyphenString (rawDirectFields scenarioUser) = some "abc-123" ∧
    resolveSupabaseUserId none (some scenarioUser) scenarioOracle =
      ⟨some "abc-123", some "abc-123", noCalls⟩ :=
  ⟨by decide, C3_resolve_direct scenarioUser scenarioOracle "abc-123" (by decide)⟩

/-- C4: with no qualifying direct field, no auth-session identifier and
a numeric local id, resolution queries the employee table by that id,
and its result is the scan of the returned row in the fixed column
order (null when no column qualifies or no row is returned). -/
theorem C4_resolve_employee_fallback (u : LocalUser) (oracle : ResolveOracle) (n : Int)
    (h1 : firstHyphenString (rawDirectFields u) = none)
    (h2 : oracle.authUserId = none ∨ oracle.authUserId = some "")
    (h3 : jsToNumber u.id = some n) :
    (resolveSupabaseUserId none (some u) oracle).result
        = (oracle.employee n).bind scanEmployeeRow ∧
    (resolveSupabaseUserId none (some u) oracle).log = ⟨true, true, some n⟩ := by
  have hd : firstHyphenString (directCandidates u) = none := by
    rw [directCandidates, firstHyphenString_filter]
    exact h1
  have key : resolveSupabaseUserId none (some u) oracle = resolveViaEmployee none u oracle := by
    rcases h2 with h2 | h2 <;> simp [resolveSupabaseUserId, cacheTruthy, hd, h2]
  rw [key]
  cases he : oracle.employee n with
  | none => simp [resolveViaEmployee, h3, he]
  | some row =>
    cases hs : scanEmployeeRow row with
    | none => simp [resolveViaEmployee, h3, he, hs]
    | some c => simp [resolveViaEmployee, h3, he, hs]

/-- C4 witness: the user `{id: 42}` with an employee row
`{auth_user_id: "xyz-789"}` resolves to `"xyz-789"` through the
employee lookup with argument 42. -/
theorem C4_witness :
    (resolveSupabaseUserId none (some scenarioUserNoDirect) scenarioOracle).result
      = some "xyz-789" ∧
    (resolveSupabaseUserId none (some scenarioUserNoDirect) scenarioOracle).log
      = ⟨true, true, some 42⟩ := by
  have h := C4_resolve_employee_fallback scenarioUserNoDirect scenarioOracle 42
    (by decide) (Or.inl rfl) (by decide)
  refine ⟨h.1.trans ?_, h.2⟩
  decide

/-- C5: a realtime INSERT whose new row matches the resolved owner
leaves the list unchanged when a task with the same id is already
present (no duplicate is created), and prepends the row otherwise. -/
theorem C5_realtime_insert_no_duplicate (uid : String) (l : List TaskRow) (r : TaskRow)
    (old : Option TaskRow) (hown : jsToString r.user_id = uid) :
    ((∃ t ∈ l, jsStrictEq t.id r.id = true) →
        handleTaskEvent uid l ⟨"INSERT", some r, old⟩ = HandlerAction.setList l) ∧
    ((∀ t ∈ l, jsStrictEq t.id r.id = false) →
        handleTaskEvent uid l ⟨"INSERT", some r, old⟩ = HandlerAction.setList (r :: l)) := by
  constructor
  · intro hex
    have hany : l.any (fun t => jsStrictEq t.id r.id) = true := by
      rw [List.any_eq_true]
      obtain ⟨t, ht, he⟩ := hex
      exact ⟨t, ht, he⟩
    simp [handleTaskEvent, hown, applyInsert, hany]
  · intro hall
    have hany : l.any (fun t => jsStrictEq t.id r.id) = false := by
      rw [List.any_eq_false]
      intro t ht
      simp [hall t ht]
    simp [handleTaskEvent, hown, applyInsert, hany]

/-- C5 witness: an INSERT for an id already in the list keeps the list
as is; an INSERT into the empty list prepends the row. -/
theorem C5_witness :
    handleTaskEvent "u-1" [⟨JSValue.num 1, JSValue.str "u-1", "x"⟩]
        ⟨"INSERT", some ⟨JSValue.num 1, JSValue.str "u-1", "y"⟩, none⟩
      = HandlerAction.setList [⟨JSValue.num 1, JSValue.str "u-1", "x"⟩] ∧
    handleTaskEvent "u-1" []
        ⟨"INSERT", some ⟨JSValue.num 2, JSValue.str "u-1", "z"⟩, none⟩
      = HandlerAction.setList [⟨JSValue.num 2, JSValue.str "u-1", "z"⟩] := by
  constructor
  · exact (C5_realtime_insert_no_duplicate "u-1" [⟨JSValue.num 1, JSValue.str "u-1", "x"⟩]
        ⟨JSValue.num 1, JSValue.str "u-1", "y"⟩ none rfl).1
      ⟨⟨JSValue.num 1, JSValue.str "u-1", "x"⟩, by simp, by decide⟩
  · exact (C5_realtime_insert_no_duplicate "u-1" []
        ⟨JSValue.num 2, JSValue.str "u-1", "z"⟩ none rfl).2 (by simp)

/-- C6: a realtime DELETE whose old row matches the resolved owner is a
no-op when no task with the deleted id is present in the list. -/
theorem C6_realtime_delete_absent (uid : String) (l : List TaskRow) (r : TaskRow)
    (nw : Option TaskRow) (hown : jsToString r.user_id = uid)
    (habs : ∀ t ∈ l, jsStrictEq t.id r.id = false) :
    handleTaskEvent uid l ⟨"DELETE", nw, some r⟩ = HandlerAction.setList l := by
  have hf : l.filter (fun t => !jsStrictEq t.id r.id) = l :=
    List.filter_eq_self.mpr (fun t ht => by simp [habs t ht])
  simp [handleTaskEvent, hown, applyDelete, hf]

/-- C6 witness: deleting id 4 from a list holding only id 3 leaves the
list equal to its prior value. -/
theorem C6_witness :
    handleTaskEvent "u-1" [⟨JSValue.num 3, JSValue.str "u-1", "a"⟩]
        ⟨"DELETE", none, some ⟨JSValue.num 4, JSValue.str "u-1", "b"⟩⟩
      = HandlerAction.setList [⟨JSValue.num 3, JSValue.str "u-1", "a"⟩] :=
  C6_realtime_delete_absent "u-1" [⟨JSValue.num 3, JSValue.str "u-1", "a"⟩]
    ⟨JSValue.num 4, JSValue.str "u-1", "b"⟩ none rfl (by decide)

/-- C7 counterexample: the JSON-encoded pending array whose single item
has the empty task text renders as `"[object Object]"`, not as the
encoded task text, so parse-then-render does not reproduce the encoded
task text values. -/
theorem C7_counterexample :
    encItems [PItem.pobj []] = "[\x7b\"task\":\"\"\x7d]".toList ∧
    renderPending ("[\x7b\"task\":\"\"\x7d]".toList) = ["[object Object]".toList] ∧
    renderPending ("[\x7b\"task\":\"\"\x7d]".toList) ≠ [PItem.pobj []].map pitemText := by
  decide

/-- C7 (amended): for a pending-items field supplied as the JSON
encoding of an array of items, parsing and rendering reproduces exactly
the encoded task text values, provided every object-shaped item has a
nonempty task text. -/
theorem C7_renderPending_roundTrip (items : List PItem)
    (h : ∀ t, PItem.pobj t ∈ items → t ≠ []) :
    renderPending (encItems items) = items.map pitemText := by
  simp only [renderPending, parsePendingField, jparseArr_enc]
  rw [List.map_map]
  apply List.map_congr_left
  intro i hi
  cases i with
  | pstr s => rfl
  | pobj t =>
    cases t with
    | nil => exact absurd rfl (h [] hi)
    | cons c cs => rfl

/-- C7 witness: a two-item pending array round-trips through encode,
parse and render. -/
theorem C7_witness :
    (∀ t, PItem.pobj t ∈ [PItem.pstr "fix-bug".toList, PItem.pobj "review pr".toList] →
      t ≠ []) ∧
    renderPending (encItems [PItem.pstr "fix-bug".toList, PItem.pobj "review pr".toList])
      = [PItem.pstr "fix-bug".toList, PItem.pobj "review pr".toList].map pitemText := by
  have hh : ∀ t, PItem.pobj t ∈ [PItem.pstr "fix-bug".toList, PItem.pobj "review pr".toList] →
      t ≠ [] := by
    intro t ht
    simp at ht
    subst ht
    decide
  exact ⟨hh, C7_renderPending_roundTrip _ hh⟩

/-- C8: when identity resolution returns null, both task list
operations set the task list to the empty list, do not call the
backend task endpoint, and log no error (the observable result is the
empty list, not an error state). -/
theorem C8_fetchTasks_null_resolution (backend backend2 : Except Unit (List TaskRow)) :
    fetchTasksInternTasks none backend = ⟨[], false, false⟩ ∧
    fetchTasksInternHome none backend2 = ⟨[], false, false⟩ :=
  ⟨rfl, rfl⟩

/-- C9: once a resolver call returns an identifier, the ref cache holds
that identifier, and every subsequent call returns the same identifier
with no external query, for any user record and call outcomes. -/
theorem C9_resolve_memoized (user : Option LocalUser) (oracle : ResolveOracle) (v : String)
    (h : (resolveSupabaseUserId none user oracle).result = some v) :
    (resolveSupabaseUserId none user oracle).cache = some v ∧
    ∀ (user2 : Option LocalUser) (oracle2 : ResolveOracle),
      resolveSupabaseUserId (resolveSupabaseUserId none user oracle).cache user2 oracle2
        = ⟨some v, some v, noCalls⟩ := by
  obtain ⟨hc, hne⟩ := resolve_result_cache user oracle v h
  refine ⟨hc, fun user2 oracle2 => ?_⟩
  rw [hc]
  have ht : cacheTruthy (some v) = true := by simp [cacheTruthy, hne]
  simp [resolveSupabaseUserId, ht, noCalls]

/-- C9 witness: after resolving `{id: 42, supabase_user_id:
"abc-123"}`, a second call returns the cached `"abc-123"` with no
external call. -/
theorem C9_witness :
    (resolveSupabaseUserId none (some scenarioUser) scenarioOracle).cache = some "abc-123" ∧
    resolveSupabaseUserId (resolveSupabaseUserId none (some scenarioUser) scenarioOracle).cache
        (some scenarioUser) scenarioOracle = ⟨some "abc-123", some "abc-123", noCalls⟩ := by
  have h := C9_resolve_memoized (some scenarioUser) scenarioOracle "abc-123" (by decide)
  exact ⟨h.1, h.2 _ _⟩

/-- C10: a realtime UPDATE whose new row matches the resolved owner
leaves the list unchanged when no task with the updated id is present;
the update never inserts the row as a new entry. -/
theorem C10_realtime_update_absent (uid : String) (l : List TaskRow) (r : TaskRow)
    (old : Option TaskRow) (hown : jsToString r.user_id = uid)
    (habs : ∀ t ∈ l, jsStrictEq t.id r.id = false) :
    handleTaskEvent uid l ⟨"UPDATE", some r, old⟩ = HandlerAction.setList l := by
  have hm : l.map (fun t => if jsStrictEq t.id r.id then r else t) = l := by
    have h2 : ∀ t ∈ l, (if jsStrictEq t.id r.id then r else t) = id t := by
      intro t ht
      simp [habs t ht]
    have h3 := List.map_congr_left h2
    simpa using h3
  simp [handleTaskEvent, hown, applyUpdate, hm]

/-- C10 witness: an UPDATE for id 6 against a list holding only id 5
leaves the list unchanged. -/
theorem C10_witness :
    handleTaskEvent "u-1" [⟨JSValue.num 5, JSValue.str "u-1", "a"⟩]
        ⟨"UPDATE", some ⟨JSValue.num 6, JSValue.str "u-1", "b"⟩, none⟩
      = HandlerAction.setList [⟨JSValue.num 5, JSValue.str "u-1", "a"⟩] :=
  C10_realtime_update_absent "u-1" [⟨JSValue.num 5, JSValue.str "u-1", "a"⟩]
    ⟨JSValue.num 6, JSValue.str "u-1", "b"⟩ none rfl (by decide)

end Fosys
